import Mathlib

/-!
Shallow embedding of the data-preparation pipeline of `src/dashboard.py`
(the function `load_and_preprocess_data` together with its helper
`categorize_regime`), and proofs about it.

Modelling conventions:
* a pandas data frame is a list of records; each CSV row is one structure value;
* floating-point columns (`Closed PnL`, `Fee`, `Size USD`, `value`) are modelled
  as exact rationals;
* a calendar date is its proleptic-Gregorian day number (day 0 = 0001-01-01),
  a timestamp is a count of minutes since 0001-01-01 00:00;
* a `pd.to_datetime` failure, surfaced by the `try/except` wrapped around the
  load at dashboard.py lines 62-66, is modelled with `Except String`;
* a missing CSV cell (in the `date` or the `classification` column) is `none`;
  python `str(nan)` renders a missing classification cell as the string
  `"nan"`, while `pd.to_datetime` silently converts a missing date cell to
  NaT, modelled as the missing date `none`, which matches no trade date in
  the join;
* the source timezone `Asia/Kolkata` is the flat offset UTC+5:30 (330 minutes),
  which it is throughout the era covered by the data set.
-/

def isLeapYear (y : Nat) : Bool :=
  y % 4 == 0 && (y % 100 != 0 || y % 400 == 0)

def monthLength (y m : Nat) : Nat :=
  match m with
  | 2 => if isLeapYear y then 29 else 28
  | 4 => 30
  | 6 => 30
  | 9 => 30
  | 11 => 30
  | _ => 31

def daysBeforeMonth (y m : Nat) : Nat :=
  (match m with
   | 1 => 0
   | 2 => 31
   | 3 => 59
   | 4 => 90
   | 5 => 120
   | 6 => 151
   | 7 => 181
   | 8 => 212
   | 9 => 243
   | 10 => 273
   | 11 => 304
   | _ => 334) +
  (if 3 ≤ m ∧ isLeapYear y = true then 1 else 0)

def daysBeforeYear (y : Nat) : Nat :=
  365 * (y - 1) + (y - 1) / 4 - (y - 1) / 100 + (y - 1) / 400

/-- Day number of a proleptic-Gregorian calendar date (0001-01-01 is day 0). -/
def civilDayNumber (y m d : Nat) : Nat :=
  daysBeforeYear y + daysBeforeMonth y m + (d - 1)

def digitVal (c : Char) : Option Nat :=
  if c.isDigit then some (c.toNat - 48) else none

def nat2 (a b : Char) : Option Nat :=
  match digitVal a, digitVal b with
  | some x, some y => some (10 * x + y)
  | _, _ => none

def nat4 (a b c d : Char) : Option Nat :=
  match nat2 a b, nat2 c d with
  | some x, some y => some (100 * x + y)
  | _, _ => none

def validYMD (y m d : Nat) : Bool :=
  decide (1 ≤ m ∧ m ≤ 12 ∧ 1 ≤ d ∧ d ≤ monthLength y m)

/-- Calendar-date parsing for the sentiment file (dashboard.py line 21,
`pd.to_datetime(df_fg['date']).dt.date`), modelled for ISO `YYYY-MM-DD`
strings; any other shape is a parse failure. -/
def parseSentDate (s : String) : Option Int :=
  match s.toList with
  | [y1, y2, y3, y4, '-', m1, m2, '-', d1, d2] =>
    match nat4 y1 y2 y3 y4, nat2 m1 m2, nat2 d1 d2 with
    | some y, some m, some dd =>
      if validYMD y m dd then some ((civilDayNumber y m dd : Nat) : Int) else none
    | _, _, _ => none
  | _ => none

/-- Column-level behaviour of `pd.to_datetime` on one date cell of the
sentiment file: an absent cell (read by pandas as NaN) is silently converted
to NaT (`some none`), a present but malformed string raises (`none`), and a
present well-formed date parses (`some (some day)`). -/
def parseSentCell : Option String → Option (Option Int)
  | none => some none
  | some s =>
    match parseSentDate s with
    | none => none
    | some d => some (some d)

/-- Timestamp parsing for the trade file (dashboard.py line 33,
`pd.to_datetime(.., format='%d-%m-%Y %H:%M')`), yielding local minutes. -/
def parseTimestampIST (s : String) : Option Int :=
  match s.toList with
  | [d1, d2, '-', m1, m2, '-', y1, y2, y3, y4, ' ', h1, h2, ':', n1, n2] =>
    match nat2 d1 d2, nat2 m1 m2, nat4 y1 y2 y3 y4, nat2 h1 h2, nat2 n1 n2 with
    | some dd, some m, some y, some hh, some nn =>
      if validYMD y m dd && decide (hh < 24) && decide (nn < 60) then
        some (((civilDayNumber y m dd : Nat) : Int) * 1440 + (hh : Int) * 60 + (nn : Int))
      else none
    | _, _, _, _, _ => none
  | _ => none

def istOffsetMinutes : Int := 330

/-- Timezone conversion Asia/Kolkata to UTC on a minute count (dashboard.py line 34). -/
def toUTC (localMinutes : Int) : Int := localMinutes - istOffsetMinutes

/-- Date truncation `.dt.date` of a UTC minute count (dashboard.py line 35). -/
def utcDateOf (utcMinutes : Int) : Int := utcMinutes.fdiv 1440

structure RawSentimentRecord where
  date : Option String
  value : ℚ
  classification : Option String
deriving DecidableEq

/-- Python `str(x)` on an optional cell: a missing value prints as `nan`. -/
def pyStr : Option String → String
  | none => "nan"
  | some s => s

def charsPrefix : List Char → List Char → Bool
  | [], _ => true
  | _ :: _, [] => false
  | p :: ps, c :: cs => p == c && charsPrefix ps cs

def charsContain (pat : List Char) : List Char → Bool
  | [] => pat.isEmpty
  | c :: cs => charsPrefix pat (c :: cs) || charsContain pat cs

/-- Python substring test `pat in s`. -/
def containsSub (pat s : String) : Bool :=
  charsContain pat.toList s.toList

/-- Python `.lower()`; spelled as a structural map over the character list
(the library String.map recurses on byte positions, which the kernel cannot
reduce). -/
def strLower (s : String) : String :=
  String.mk (s.toList.map Char.toLower)

/-- Embedding of `categorize_regime` (dashboard.py lines 24-28). -/
def categorize_regime (x : Option String) : String :=
  let val := strLower (pyStr x)
  if containsSub "fear" val then "Fear"
  else if containsSub "greed" val then "Greed"
  else "Neutral"

structure SentimentDay where
  date : Option Int
  value : ℚ
  classification : Option String
  regime : String
deriving DecidableEq

def mkSentimentDay (d : Option Int) (r : RawSentimentRecord) : SentimentDay :=
  { date := d, value := r.value, classification := r.classification,
    regime := categorize_regime r.classification }

/-- Vectorised date parse of dashboard.py line 21: fails on the first
malformed date, otherwise pairs every row with its parsed date. -/
def parseSentiment : List RawSentimentRecord → Except String (List (Option Int × RawSentimentRecord))
  | [] => .ok []
  | r :: rs =>
    match parseSentCell r.date with
    | none => .error ("ParseError: unparseable sentiment date " ++ pyStr r.date)
    | some d =>
      match parseSentiment rs with
      | .error e => .error e
      | .ok ps => .ok ((d, r) :: ps)

/-- pandas `drop_duplicates(subset=['Date'])` (dashboard.py line 22): keep the
first row seen for each date, preserving row order otherwise (pandas also
treats repeated NaT keys, here the `none` date, as duplicates of each other). -/
def dropDupDates (seen : List (Option Int)) :
    List (Option Int × RawSentimentRecord) → List (Option Int × RawSentimentRecord)
  | [] => []
  | p :: rest =>
    if p.1 ∈ seen then dropDupDates seen rest
    else p :: dropDupDates (p.1 :: seen) rest

/-- Sentiment Normalizer: dashboard.py lines 20-30. -/
def processSentiment (rs : List RawSentimentRecord) : Except String (List SentimentDay) :=
  match parseSentiment rs with
  | .error e => .error e
  | .ok ps => .ok ((dropDupDates [] ps).map (fun p => mkSentimentDay p.1 p.2))

structure RawTrade where
  account : String
  timestamp_ist : String
  closed_pnl : ℚ
  fee : ℚ
  size_usd : ℚ
  crossed : Bool
deriving DecidableEq

structure NormalizedTrade extends RawTrade where
  timestamp_utc : Int
  date : Int
  net_pnl : ℚ
  is_win : Bool
  is_loss : Bool
  is_taker : Bool
deriving DecidableEq

/-- Trade Normalizer for one row: dashboard.py lines 33-39. -/
def normalizeTrade (t : RawTrade) : Option NormalizedTrade :=
  (parseTimestampIST t.timestamp_ist).map (fun lm =>
    let utc := toUTC lm
    let np := t.closed_pnl - t.fee
    { toRawTrade := t
      timestamp_utc := utc
      date := utcDateOf utc
      net_pnl := np
      is_win := decide (np > 0)
      is_loss := decide (np < 0)
      is_taker := t.crossed })

/-- Vectorised trade normalisation: fails on the first unparseable timestamp. -/
def processTrades : List RawTrade → Except String (List NormalizedTrade)
  | [] => .ok []
  | t :: ts =>
    match normalizeTrade t with
    | none => .error ("ParseError: unparseable trade timestamp " ++ t.timestamp_ist)
    | some nt =>
      match processTrades ts with
      | .error e => .error e
      | .ok nts => .ok (nt :: nts)

/-- Rows of the group of one calendar date. -/
def tradesOn (nts : List NormalizedTrade) (d : Int) : List NormalizedTrade :=
  nts.filter (fun t => t.date == d)

/-- groupby keys: the distinct trade dates, ascending (pandas sorts group keys). -/
def tradeDates (nts : List NormalizedTrade) : List Int :=
  List.insertionSort (fun a b => a ≤ b) (nts.map (fun t => t.date)).dedup

structure DailyStats where
  date : Int
  daily_total_net_pnl : ℚ
  avg_trade_size : ℚ
  total_trades : Nat
  unique_accounts : Nat
  winning_trades : Nat
  losing_trades : Nat
  taker_trades : Nat
  win_rate : ℚ
  taker_ratio : ℚ
deriving DecidableEq

/-- Daily Aggregator for one date (dashboard.py lines 42-53); the `if .. = 0`
denominators are the `.replace(0, 1)` guards of lines 52-53. -/
def mkDailyStats (nts : List NormalizedTrade) (d : Int) : DailyStats :=
  let g := tradesOn nts d
  let w := g.countP (fun t => t.is_win)
  let l := g.countP (fun t => t.is_loss)
  let k := g.countP (fun t => t.is_taker)
  let n := g.length
  { date := d
    daily_total_net_pnl := (g.map (fun t => t.net_pnl)).sum
    avg_trade_size := (g.map (fun t => t.size_usd)).sum / (n : ℚ)
    total_trades := n
    unique_accounts := ((g.map (fun t => t.account)).dedup).length
    winning_trades := w
    losing_trades := l
    taker_trades := k
    win_rate := (w : ℚ) / (if w + l = 0 then (1 : ℚ) else ((w + l : Nat) : ℚ))
    taker_ratio := (k : ℚ) / (if n = 0 then (1 : ℚ) else ((n : Nat) : ℚ)) }

def dailyStats (nts : List NormalizedTrade) : List DailyStats :=
  (tradeDates nts).map (mkDailyStats nts)

structure DailySummary extends DailyStats where
  value : ℚ
  classification : Option String
  regime : String
deriving DecidableEq

def mkSummary (st : DailyStats) (sd : SentimentDay) : DailySummary :=
  { toDailyStats := st, value := sd.value, classification := sd.classification,
    regime := sd.regime }

/-- Regime Joiner, the inner merge on Date of dashboard.py line 56; the
sentiment side has unique dates after dedup, so the first match is the only
one, and pandas preserves the order of the left keys. -/
def regimeJoin (stats : List DailyStats) (sds : List SentimentDay) : List DailySummary :=
  stats.filterMap (fun st => (sds.find? (fun sd => sd.date == some st.date)).map (mkSummary st))

/-- Final `sort_values('Date')` of dashboard.py line 57. -/
def sortByDate (rows : List DailySummary) : List DailySummary :=
  List.insertionSort (fun a b => a.date ≤ b.date) rows

/-- Embedding of `load_and_preprocess_data` (dashboard.py lines 15-59): the whole
pipeline, returning the merged daily table plus the normalized trades, or the
first parse error (the caller at lines 62-66 aborts the load on any error). -/
def load_and_preprocess_data (sent : List RawSentimentRecord) (trades : List RawTrade) :
    Except String (List DailySummary × List NormalizedTrade) :=
  match processSentiment sent with
  | .error e => .error e
  | .ok sds =>
    match processTrades trades with
    | .error e => .error e
    | .ok nts => .ok (sortByDate (regimeJoin (dailyStats nts) sds), nts)

instance : IsTotal DailySummary (fun a b => a.date ≤ b.date) :=
  ⟨fun a b => Int.le_total a.date b.date⟩

instance : IsTrans DailySummary (fun a b => a.date ≤ b.date) :=
  ⟨fun _ _ _ h1 h2 => le_trans h1 h2⟩

/-- Sample raw trade at source-local time 01-01-2023 02:00 (the canonical
timezone regression input). -/
def sampleTrade : RawTrade :=
  { account := "0xabc", timestamp_ist := "01-01-2023 02:00",
    closed_pnl := 10, fee := 1, size_usd := 100, crossed := true }

def fallbackNT : NormalizedTrade :=
  { account := "", timestamp_ist := "", closed_pnl := 0, fee := 0, size_usd := 0,
    crossed := false, timestamp_utc := 0, date := 0, net_pnl := 0,
    is_win := false, is_loss := false, is_taker := false }

def sampleNT : NormalizedTrade := (normalizeTrade sampleTrade).getD fallbackNT

/-- Sample trade whose net PnL is exactly zero. -/
def zeroTrade : RawTrade :=
  { account := "0xdef", timestamp_ist := "01-01-2023 02:00",
    closed_pnl := 5, fee := 5, size_usd := 10, crossed := false }

def zeroNT : NormalizedTrade := (normalizeTrade zeroTrade).getD fallbackNT

def sampleSentiment : List RawSentimentRecord :=
  [{ date := some "2022-12-31", value := 30, classification := some "Extreme Fear" }]

def sampleOut : List DailySummary × List NormalizedTrade :=
  ((load_and_preprocess_data sampleSentiment [sampleTrade]).toOption).getD ([], [])

/-- Sentiment record whose classification cell is absent. -/
def absentClassRecord : RawSentimentRecord :=
  { date := some "2023-05-01", value := 50, classification := none }

/-- Sentiment record whose date string is malformed. -/
def badDateRecord : RawSentimentRecord :=
  { date := some "garbage", value := 0, classification := some "Fear" }

/-- Sentiment record whose date cell is absent. -/
def absentDateRecord : RawSentimentRecord :=
  { date := none, value := 40, classification := some "Fear" }

/-- Sentiment input with a duplicated date, for exercising the dedup step. -/
def dupSentiment : List RawSentimentRecord :=
  [{ date := some "2023-05-01", value := 20, classification := some "Greed" },
   { date := some "2023-05-01", value := 80, classification := some "Fear" }]

def dedupOut : List SentimentDay :=
  ((processSentiment dupSentiment).toOption).getD []

/-! Helper lemmas about the embedding. -/

theorem mkDailyStats_date (nts : List NormalizedTrade) (d : Int) :
    (mkDailyStats nts d).date = d := rfl

theorem mkDailyStats_winning (nts : List NormalizedTrade) (d : Int) :
    (mkDailyStats nts d).winning_trades = (tradesOn nts d).countP (fun t => t.is_win) := rfl

theorem mkDailyStats_losing (nts : List NormalizedTrade) (d : Int) :
    (mkDailyStats nts d).losing_trades = (tradesOn nts d).countP (fun t => t.is_loss) := rfl

theorem mkDailyStats_taker (nts : List NormalizedTrade) (d : Int) :
    (mkDailyStats nts d).taker_trades = (tradesOn nts d).countP (fun t => t.is_taker) := rfl

theorem mkDailyStats_total (nts : List NormalizedTrade) (d : Int) :
    (mkDailyStats nts d).total_trades = (tradesOn nts d).length := rfl

theorem mkDailyStats_win_rate (nts : List NormalizedTrade) (d : Int) :
    (mkDailyStats nts d).win_rate =
      ((tradesOn nts d).countP (fun t => t.is_win) : ℚ) /
        (if (tradesOn nts d).countP (fun t => t.is_win)
              + (tradesOn nts d).countP (fun t => t.is_loss) = 0 then (1 : ℚ)
         else (((tradesOn nts d).countP (fun t => t.is_win)
              + (tradesOn nts d).countP (fun t => t.is_loss) : Nat) : ℚ)) := rfl

theorem mkDailyStats_taker_ratio (nts : List NormalizedTrade) (d : Int) :
    (mkDailyStats nts d).taker_ratio =
      ((tradesOn nts d).countP (fun t => t.is_taker) : ℚ) /
        (if (tradesOn nts d).length = 0 then (1 : ℚ)
         else (((tradesOn nts d).length : Nat) : ℚ)) := rfl

theorem normalizeTrade_some {t : RawTrade} {nt : NormalizedTrade}
    (h : normalizeTrade t = some nt) :
    ∃ lm, parseTimestampIST t.timestamp_ist = some lm ∧
      nt = { toRawTrade := t
             timestamp_utc := toUTC lm
             date := utcDateOf (toUTC lm)
             net_pnl := t.closed_pnl - t.fee
             is_win := decide (t.closed_pnl - t.fee > 0)
             is_loss := decide (t.closed_pnl - t.fee < 0)
             is_taker := t.crossed } := by
  unfold normalizeTrade at h
  rw [Option.map_eq_some'] at h
  obtain ⟨lm, hlm, hnt⟩ := h
  exact ⟨lm, hlm, hnt.symm⟩

theorem normalizeTrade_fields {t : RawTrade} {nt : NormalizedTrade}
    (h : normalizeTrade t = some nt) :
    nt.net_pnl = t.closed_pnl - t.fee ∧
    nt.is_win = decide (nt.net_pnl > 0) ∧
    nt.is_loss = decide (nt.net_pnl < 0) ∧
    nt.is_taker = t.crossed ∧
    nt.closed_pnl = t.closed_pnl ∧ nt.fee = t.fee ∧ nt.crossed = t.crossed := by
  obtain ⟨lm, _, hnt⟩ := normalizeTrade_some h
  subst hnt
  exact ⟨rfl, rfl, rfl, rfl, rfl, rfl, rfl⟩

theorem processTrades_ok_mem {trades : List RawTrade} {nts : List NormalizedTrade}
    (h : processTrades trades = .ok nts) :
    ∀ nt ∈ nts, ∃ t ∈ trades, normalizeTrade t = some nt := by
  induction trades generalizing nts with
  | nil =>
    simp only [processTrades] at h
    cases h
    simp
  | cons t ts ih =>
    simp only [processTrades] at h
    split at h
    · cases h
    · rename_i nt0 hn
      split at h
      · cases h
      · rename_i nts' hp
        cases h
        intro nt hnt
        rcases List.mem_cons.mp hnt with rfl | hnt'
        · exact ⟨t, List.mem_cons_self t ts, hn⟩
        · obtain ⟨t', ht', hnt''⟩ := ih hp nt hnt'
          exact ⟨t', List.mem_cons_of_mem t ht', hnt''⟩

theorem processTrades_flags {trades : List RawTrade} {nts : List NormalizedTrade}
    (h : processTrades trades = .ok nts) :
    ∀ nt ∈ nts, nt.is_win = decide (nt.net_pnl > 0) ∧ nt.is_loss = decide (nt.net_pnl < 0) := by
  intro nt hnt
  obtain ⟨t, _, ht⟩ := processTrades_ok_mem h nt hnt
  have hf := normalizeTrade_fields ht
  exact ⟨hf.2.1, hf.2.2.1⟩

theorem countP_win_loss_partition (g : List NormalizedTrade)
    (hg : ∀ nt ∈ g, nt.is_win = decide (nt.net_pnl > 0) ∧ nt.is_loss = decide (nt.net_pnl < 0)) :
    g.countP (fun t => t.is_win) + g.countP (fun t => t.is_loss)
      + g.countP (fun t => decide (t.net_pnl = 0)) = g.length := by
  induction g with
  | nil => simp
  | cons t g ih =>
    have ht := hg t (List.mem_cons_self t g)
    have ih' := ih (fun nt hnt => hg nt (List.mem_cons_of_mem t hnt))
    have e0 : (if (false = true) then (1 : Nat) else 0) = 0 := rfl
    have e1 : (if (true = true) then (1 : Nat) else 0) = 1 := rfl
    rcases lt_trichotomy t.net_pnl 0 with hlt | heq | hgt
    · have h1 : t.is_win = false := by rw [ht.1]; exact decide_eq_false (by exact absurd · (not_lt.mpr hlt.le))
      have h2 : t.is_loss = true := by rw [ht.2]; exact decide_eq_true hlt
      have h3 : (decide (t.net_pnl = 0)) = false := decide_eq_false hlt.ne
      simp only [List.countP_cons, h1, h2, h3, List.length_cons, e0, e1, if_true]
      omega
    · have h1 : t.is_win = false := by rw [ht.1]; exact decide_eq_false (by rw [heq]; exact lt_irrefl 0)
      have h2 : t.is_loss = false := by rw [ht.2]; exact decide_eq_false (by rw [heq]; exact lt_irrefl 0)
      have h3 : (decide (t.net_pnl = 0)) = true := decide_eq_true heq
      simp only [List.countP_cons, h1, h2, h3, List.length_cons, e0, e1, if_true]
      omega
    · have h1 : t.is_win = true := by rw [ht.1]; exact decide_eq_true hgt
      have h2 : t.is_loss = false := by rw [ht.2]; exact decide_eq_false (by exact absurd · (not_lt.mpr hgt.le))
      have h3 : (decide (t.net_pnl = 0)) = false := decide_eq_false hgt.ne.symm
      simp only [List.countP_cons, h1, h2, h3, List.length_cons, e0, e1, if_true]
      omega

/-! Claim theorems. -/

/-- Claim C1: for every raw trade, the bucketed calendar date is obtained by
parsing `Timestamp IST` as source-local time, converting to UTC (minus 5:30)
and truncating to a UTC date; in particular a trade stamped
`01-01-2023 02:00` local buckets to the UTC date 2022-12-31, not 2023-01-01. -/
theorem trade_date_bucketing_utc (t : RawTrade) (nt : NormalizedTrade)
    (h : normalizeTrade t = some nt) :
    (∃ lm, parseTimestampIST t.timestamp_ist = some lm ∧
      nt.timestamp_utc = toUTC lm ∧ nt.date = utcDateOf (toUTC lm)) ∧
    (t.timestamp_ist = "01-01-2023 02:00" →
      nt.date = ((civilDayNumber 2022 12 31 : Nat) : Int) ∧
      nt.date ≠ ((civilDayNumber 2023 1 1 : Nat) : Int)) := by
  obtain ⟨lm, hlm, hnt⟩ := normalizeTrade_some h
  subst hnt
  refine ⟨⟨lm, hlm, rfl, rfl⟩, ?_⟩
  intro hts
  rw [hts] at hlm
  have hv : parseTimestampIST "01-01-2023 02:00" = some 1063468920 := by decide
  rw [hv] at hlm
  have hlm' : lm = 1063468920 := (Option.some.inj hlm).symm
  subst hlm'
  refine ⟨?_, ?_⟩
  · show utcDateOf (toUTC 1063468920) = ((civilDayNumber 2022 12 31 : Nat) : Int)
    decide
  · show utcDateOf (toUTC 1063468920) ≠ ((civilDayNumber 2023 1 1 : Nat) : Int)
    decide

theorem trade_date_bucketing_utc_witness :
    sampleNT.date = ((civilDayNumber 2022 12 31 : Nat) : Int) ∧
    sampleNT.date ≠ ((civilDayNumber 2023 1 1 : Nat) : Int) :=
  (trade_date_bucketing_utc sampleTrade sampleNT (by rfl)).2 (by rfl)

/-- Claim C7: for every normalized trade produced by the pipeline,
net_pnl = closed_pnl - fee exactly (numeric columns are exact rationals in
this embedding), is_win iff net_pnl is positive, is_loss iff negative, and
is_taker iff the raw Crossed flag is true. -/
theorem net_pnl_and_flags_correct (trades : List RawTrade) (nts : List NormalizedTrade)
    (h : processTrades trades = .ok nts) (nt : NormalizedTrade) (hnt : nt ∈ nts) :
    nt.net_pnl = nt.closed_pnl - nt.fee ∧
    (nt.is_win = true ↔ nt.net_pnl > 0) ∧
    (nt.is_loss = true ↔ nt.net_pnl < 0) ∧
    (nt.is_taker = true ↔ nt.crossed = true) := by
  obtain ⟨t, _, ht⟩ := processTrades_ok_mem h nt hnt
  have hf := normalizeTrade_fields ht
  refine ⟨?_, ?_, ?_, ?_⟩
  · rw [hf.1, hf.2.2.2.2.1, hf.2.2.2.2.2.1]
  · rw [hf.2.1]; exact decide_eq_true_iff
  · rw [hf.2.2.1]; exact decide_eq_true_iff
  · rw [hf.2.2.2.1, hf.2.2.2.2.2.2]

theorem net_pnl_and_flags_correct_witness :
    sampleNT.net_pnl = sampleNT.closed_pnl - sampleNT.fee ∧
    (sampleNT.is_win = true ↔ sampleNT.net_pnl > 0) ∧
    (sampleNT.is_loss = true ↔ sampleNT.net_pnl < 0) ∧
    (sampleNT.is_taker = true ↔ sampleNT.crossed = true) :=
  net_pnl_and_flags_correct [sampleTrade] [sampleNT] (by rfl) sampleNT
    (List.mem_singleton.mpr rfl)

/-- Claim C9: the pipeline is deterministic; two runs on identical inputs
produce identical outputs (every stage of the embedding, first-seen dedup,
grouping and insertion sort included, is a pure function of the input). -/
theorem pipeline_deterministic (s1 s2 : List RawSentimentRecord) (t1 t2 : List RawTrade)
    (hs : s1 = s2) (ht : t1 = t2) :
    load_and_preprocess_data s1 t1 = load_and_preprocess_data s2 t2 := by
  rw [hs, ht]

theorem pipeline_deterministic_witness :
    load_and_preprocess_data sampleSentiment [sampleTrade] =
      load_and_preprocess_data sampleSentiment [sampleTrade] :=
  pipeline_deterministic sampleSentiment sampleSentiment [sampleTrade] [sampleTrade] rfl rfl

/-- Claim C10: is_win and is_loss are mutually exclusive per trade (a trade
with zero net PnL counts as neither), so winning + losing is at most the
total trade count of each day, strictly less exactly when some trade of the
day nets to zero. -/
theorem win_loss_exclusive_counts (trades : List RawTrade) (nts : List NormalizedTrade)
    (h : processTrades trades = .ok nts) (d : Int) :
    (∀ nt ∈ nts, ¬(nt.is_win = true ∧ nt.is_loss = true)) ∧
    (mkDailyStats nts d).winning_trades + (mkDailyStats nts d).losing_trades
      ≤ (mkDailyStats nts d).total_trades ∧
    ((mkDailyStats nts d).winning_trades + (mkDailyStats nts d).losing_trades
        < (mkDailyStats nts d).total_trades ↔ ∃ nt ∈ tradesOn nts d, nt.net_pnl = 0) := by
  have hflags := processTrades_flags h
  have hsub : ∀ nt ∈ tradesOn nts d, nt ∈ nts := fun nt hnt => List.mem_of_mem_filter hnt
  have hpart := countP_win_loss_partition (tradesOn nts d)
    (fun nt hnt => hflags nt (hsub nt hnt))
  refine ⟨?_, ?_, ?_⟩
  · intro nt hnt hc
    obtain ⟨hw, hl⟩ := hflags nt hnt
    have h1 : nt.net_pnl > 0 := of_decide_eq_true (hw ▸ hc.1)
    have h2 : nt.net_pnl < 0 := of_decide_eq_true (hl ▸ hc.2)
    exact absurd h2 (not_lt.mpr h1.le)
  · rw [mkDailyStats_winning, mkDailyStats_losing, mkDailyStats_total]
    omega
  · rw [mkDailyStats_winning, mkDailyStats_losing, mkDailyStats_total]
    constructor
    · intro hlt
      have hz : 0 < (tradesOn nts d).countP (fun t => decide (t.net_pnl = 0)) := by omega
      obtain ⟨nt, hnt, hp⟩ := List.countP_pos_iff.mp hz
      exact ⟨nt, hnt, of_decide_eq_true hp⟩
    · rintro ⟨nt, hnt, hz⟩
      have : 0 < (tradesOn nts d).countP (fun t => decide (t.net_pnl = 0)) :=
        List.countP_pos_iff.mpr ⟨nt, hnt, decide_eq_true hz⟩
      omega

theorem win_loss_exclusive_counts_witness :
    (mkDailyStats [zeroNT] zeroNT.date).winning_trades
      + (mkDailyStats [zeroNT] zeroNT.date).losing_trades
      ≤ (mkDailyStats [zeroNT] zeroNT.date).total_trades :=
  (win_loss_exclusive_counts [zeroTrade] [zeroNT] (by rfl) zeroNT.date).2.1

theorem parseSentiment_ok {recs : List RawSentimentRecord} {ps : List (Option Int × RawSentimentRecord)}
    (h : parseSentiment recs = .ok ps) :
    ps.map Prod.snd = recs ∧ ∀ p ∈ ps, parseSentCell p.2.date = some p.1 := by
  induction recs generalizing ps with
  | nil =>
    simp only [parseSentiment] at h
    cases h
    simp
  | cons r rs ih =>
    simp only [parseSentiment] at h
    split at h
    · cases h
    · rename_i d hd
      split at h
      · cases h
      · rename_i ps' hps
        cases h
        obtain ⟨ih1, ih2⟩ := ih hps
        refine ⟨by simp [ih1], ?_⟩
        intro p hp
        rcases List.mem_cons.mp hp with rfl | hp'
        · exact hd
        · exact ih2 p hp'

theorem parseSentiment_error_of {recs : List RawSentimentRecord}
    (h : ∃ r ∈ recs, parseSentCell r.date = none) :
    ∃ r ∈ recs, parseSentCell r.date = none ∧
      parseSentiment recs = .error ("ParseError: unparseable sentiment date " ++ pyStr r.date) := by
  induction recs with
  | nil => simp at h
  | cons r rs ih =>
    by_cases hd : parseSentCell r.date = none
    · exact ⟨r, List.mem_cons_self r rs, hd, by simp only [parseSentiment, hd]⟩
    · obtain ⟨d, hd'⟩ := Option.ne_none_iff_exists'.mp hd
      have hrs : ∃ r' ∈ rs, parseSentCell r'.date = none := by
        obtain ⟨r', hm, hn⟩ := h
        rcases List.mem_cons.mp hm with rfl | hm'
        · exact absurd hn hd
        · exact ⟨r', hm', hn⟩
      obtain ⟨r', hm', hn', herr⟩ := ih hrs
      refine ⟨r', List.mem_cons_of_mem r hm', hn', ?_⟩
      simp only [parseSentiment, hd', herr]

theorem parseSentiment_total {recs : List RawSentimentRecord}
    (h : ∀ r ∈ recs, (parseSentCell r.date).isSome = true) :
    ∃ ps, parseSentiment recs = .ok ps := by
  induction recs with
  | nil => exact ⟨[], rfl⟩
  | cons r rs ih =>
    obtain ⟨d, hd⟩ := Option.isSome_iff_exists.mp (h r (List.mem_cons_self r rs))
    obtain ⟨ps, hps⟩ := ih (fun r' h' => h r' (List.mem_cons_of_mem r h'))
    exact ⟨(d, r) :: ps, by simp only [parseSentiment, hd, hps]⟩

theorem dropDupDates_mem_fst (seen : List (Option Int)) (l : List (Option Int × RawSentimentRecord)) (d : Option Int) :
    d ∈ (dropDupDates seen l).map Prod.fst ↔ d ∈ l.map Prod.fst ∧ d ∉ seen := by
  induction l generalizing seen with
  | nil => simp [dropDupDates]
  | cons p rest ih =>
    simp only [dropDupDates]
    by_cases hp : p.1 ∈ seen
    · rw [if_pos hp, ih seen]
      simp only [List.map_cons, List.mem_cons]
      constructor
      · rintro ⟨hm, hs⟩
        exact ⟨Or.inr hm, hs⟩
      · rintro ⟨hm | hm, hs⟩
        · exact absurd (hm ▸ hp) hs
        · exact ⟨hm, hs⟩
    · rw [if_neg hp]
      simp only [List.map_cons, List.mem_cons, ih (p.1 :: seen)]
      constructor
      · rintro (rfl | ⟨hm, hs⟩)
        · exact ⟨Or.inl rfl, hp⟩
        · exact ⟨Or.inr hm, fun c => hs (Or.inr c)⟩
      · rintro ⟨rfl | hm, hs⟩
        · exact Or.inl rfl
        · by_cases hdp : d = p.1
          · exact Or.inl hdp
          · exact Or.inr ⟨hm, fun c => c.elim hdp hs⟩

theorem dropDupDates_sub {seen : List (Option Int)} {l : List (Option Int × RawSentimentRecord)}
    {p : Option Int × RawSentimentRecord} (hp : p ∈ dropDupDates seen l) : p ∈ l := by
  induction l generalizing seen with
  | nil => simp [dropDupDates] at hp
  | cons q rest ih =>
    simp only [dropDupDates] at hp
    by_cases hq : q.1 ∈ seen
    · rw [if_pos hq] at hp
      exact List.mem_cons_of_mem q (ih hp)
    · rw [if_neg hq] at hp
      rcases List.mem_cons.mp hp with rfl | hp'
      · exact List.mem_cons_self p rest
      · exact List.mem_cons_of_mem q (ih hp')

theorem dropDupDates_nodup (seen : List (Option Int)) (l : List (Option Int × RawSentimentRecord)) :
    ((dropDupDates seen l).map Prod.fst).Nodup := by
  induction l generalizing seen with
  | nil => simp [dropDupDates]
  | cons p rest ih =>
    simp only [dropDupDates]
    by_cases hp : p.1 ∈ seen
    · rw [if_pos hp]
      exact ih seen
    · rw [if_neg hp]
      simp only [List.map_cons, List.nodup_cons]
      refine ⟨?_, ih (p.1 :: seen)⟩
      intro hmem
      exact ((dropDupDates_mem_fst (p.1 :: seen) rest p.1).mp hmem).2
        (List.mem_cons_self p.1 seen)

theorem dropDupDates_find? (seen : List (Option Int)) (l : List (Option Int × RawSentimentRecord)) (d : Option Int)
    (hd : d ∉ seen) :
    (dropDupDates seen l).find? (fun p => p.1 == d) = l.find? (fun p => p.1 == d) := by
  induction l generalizing seen with
  | nil => simp [dropDupDates]
  | cons p rest ih =>
    simp only [dropDupDates]
    by_cases hp : p.1 ∈ seen
    · rw [if_pos hp, ih seen hd]
      have hne : (p.1 == d) = false := by
        simp only [beq_eq_false_iff_ne, ne_eq]
        rintro rfl
        exact hd hp
      simp only [List.find?_cons, hne]
    · rw [if_neg hp]
      by_cases hpd : p.1 = d
      · have hpos : (p.1 == d) = true := beq_iff_eq.mpr hpd
        simp only [List.find?_cons, hpos]
      · have hne : (p.1 == d) = false := beq_eq_false_iff_ne.mpr hpd
        simp only [List.find?_cons, hne]
        refine ih (p.1 :: seen) (fun c => ?_)
        rw [List.mem_cons] at c
        exact c.elim (fun h => hpd h.symm) hd

theorem find?_self_of_nodup_keys {l : List (Option Int × RawSentimentRecord)}
    (hnd : (l.map Prod.fst).Nodup) {q : Option Int × RawSentimentRecord} (hq : q ∈ l) :
    l.find? (fun p => p.1 == q.1) = some q := by
  induction l with
  | nil => simp at hq
  | cons p rest ih =>
    simp only [List.map_cons, List.nodup_cons] at hnd
    rcases List.mem_cons.mp hq with rfl | hq'
    · have hpos : (q.1 == q.1) = true := beq_iff_eq.mpr rfl
      simp only [List.find?_cons, hpos]
    · have hne : (p.1 == q.1) = false := by
        simp only [beq_eq_false_iff_ne, ne_eq]
        intro hc
        exact hnd.1 (hc ▸ List.mem_map_of_mem Prod.fst hq')
      simp only [List.find?_cons, hne]
      exact ih hnd.2 hq'

theorem parseSentiment_find? {recs : List RawSentimentRecord} {ps : List (Option Int × RawSentimentRecord)}
    (h : parseSentiment recs = .ok ps) (d : Option Int) :
    (ps.find? (fun p => p.1 == d)).map Prod.snd
      = recs.find? (fun r => parseSentCell r.date == some d) := by
  induction recs generalizing ps with
  | nil =>
    simp only [parseSentiment] at h
    cases h
    simp
  | cons r rs ih =>
    simp only [parseSentiment] at h
    split at h
    · cases h
    · rename_i d0 hd0
      split at h
      · cases h
      · rename_i ps' hps
        cases h
        by_cases hdd : d0 = d
        · subst hdd
          have hpos : (((d0, r) : Option Int × RawSentimentRecord).1 == d0) = true := beq_iff_eq.mpr rfl
          have hpos' : (parseSentCell r.date == some d0) = true := by
            simp only [hd0, beq_iff_eq]
          simp only [List.find?_cons, hpos, hpos']
          rfl
        · have hne : (((d0, r) : Option Int × RawSentimentRecord).1 == d) = false :=
            beq_eq_false_iff_ne.mpr hdd
          have hne' : (parseSentCell r.date == some d) = false := by
            simp only [hd0, beq_eq_false_iff_ne, ne_eq, Option.some.injEq]
            exact hdd
          simp only [List.find?_cons, hne, hne']
          exact ih hps

theorem processSentiment_ok_elim {rs : List RawSentimentRecord} {sds : List SentimentDay}
    (h : processSentiment rs = .ok sds) :
    ∃ ps, parseSentiment rs = .ok ps ∧
      sds = (dropDupDates [] ps).map (fun p => mkSentimentDay p.1 p.2) := by
  unfold processSentiment at h
  cases hp : parseSentiment rs with
  | error e => rw [hp] at h; cases h
  | ok ps =>
    rw [hp] at h
    exact ⟨ps, rfl, (Except.ok.inj h).symm⟩

theorem processSentiment_dates {rs : List RawSentimentRecord} {sds : List SentimentDay}
    (h : processSentiment rs = .ok sds) (d : Option Int) :
    (∃ sd ∈ sds, sd.date = d) ↔ ∃ r ∈ rs, parseSentCell r.date = some d := by
  obtain ⟨ps, hps, rfl⟩ := processSentiment_ok_elim h
  obtain ⟨hsnd, hfst⟩ := parseSentiment_ok hps
  constructor
  · rintro ⟨sd, hsd, rfl⟩
    rw [List.mem_map] at hsd
    obtain ⟨p, hp, rfl⟩ := hsd
    have hpl := dropDupDates_sub hp
    refine ⟨p.2, ?_, hfst p hpl⟩
    rw [← hsnd]
    exact List.mem_map_of_mem Prod.snd hpl
  · rintro ⟨r, hr, hparse⟩
    rw [← hsnd, List.mem_map] at hr
    obtain ⟨p, hp, rfl⟩ := hr
    have hpd : parseSentCell p.2.date = some p.1 := hfst p hp
    have hd : p.1 = d := by
      rw [hpd] at hparse
      exact Option.some.inj hparse
    have hmem : d ∈ (dropDupDates [] ps).map Prod.fst := by
      rw [dropDupDates_mem_fst]
      exact ⟨hd ▸ List.mem_map_of_mem Prod.fst hp, by simp⟩
    rw [List.mem_map] at hmem
    obtain ⟨q, hq, hq1⟩ := hmem
    exact ⟨mkSentimentDay q.1 q.2, List.mem_map_of_mem _ hq, hq1⟩

theorem processSentiment_regime {rs : List RawSentimentRecord} {sds : List SentimentDay}
    (h : processSentiment rs = .ok sds) :
    ∀ sd ∈ sds, sd.regime = categorize_regime sd.classification := by
  obtain ⟨ps, _, rfl⟩ := processSentiment_ok_elim h
  intro sd hsd
  rw [List.mem_map] at hsd
  obtain ⟨p, _, rfl⟩ := hsd
  rfl

/-- Claim C6: the sentiment normalizer keeps the first-seen record of every
distinct date and drops later duplicates: the output has pairwise distinct
dates, a date appears iff some raw record parses to it, and each output row is
built from the first raw record whose date parses to that date. -/
theorem sentiment_dedup_first_seen (recs : List RawSentimentRecord) (sds : List SentimentDay)
    (h : processSentiment recs = .ok sds) :
    (sds.map (fun sd => sd.date)).Nodup ∧
    (∀ d : Option Int, (∃ sd ∈ sds, sd.date = d) ↔ ∃ r ∈ recs, parseSentCell r.date = some d) ∧
    (∀ sd ∈ sds, ∃ r, recs.find? (fun r => parseSentCell r.date == some sd.date) = some r ∧
      sd = mkSentimentDay sd.date r) := by
  have hdates := processSentiment_dates h
  obtain ⟨ps, hps, rfl⟩ := processSentiment_ok_elim h
  refine ⟨?_, hdates, ?_⟩
  · have : ((dropDupDates [] ps).map (fun p => mkSentimentDay p.1 p.2)).map (fun sd => sd.date)
        = (dropDupDates [] ps).map Prod.fst := by
      rw [List.map_map]
      rfl
    rw [this]
    exact dropDupDates_nodup [] ps
  · intro sd hsd
    rw [List.mem_map] at hsd
    obtain ⟨q, hq, rfl⟩ := hsd
    have hq1 : (mkSentimentDay q.1 q.2).date = q.1 := rfl
    have hfind : (dropDupDates [] ps).find? (fun p => p.1 == q.1) = some q :=
      find?_self_of_nodup_keys (dropDupDates_nodup [] ps) hq
    have hfind2 : ps.find? (fun p => p.1 == q.1) = some q := by
      rw [← dropDupDates_find? [] ps q.1 (by simp)]
      exact hfind
    have hrec : recs.find? (fun r => parseSentCell r.date == some q.1) = some q.2 := by
      rw [← parseSentiment_find? hps q.1, hfind2]
      rfl
    exact ⟨q.2, hrec, rfl⟩

theorem sentiment_dedup_first_seen_witness :
    ((dedupOut).map (fun sd => sd.date)).Nodup :=
  (sentiment_dedup_first_seen dupSentiment dedupOut (by rfl)).1

theorem load_ok_elim {sent : List RawSentimentRecord} {trades : List RawTrade}
    {out : List DailySummary × List NormalizedTrade}
    (h : load_and_preprocess_data sent trades = .ok out) :
    ∃ sds nts, processSentiment sent = .ok sds ∧ processTrades trades = .ok nts ∧
      out = (sortByDate (regimeJoin (dailyStats nts) sds), nts) := by
  unfold load_and_preprocess_data at h
  cases hs : processSentiment sent with
  | error e => rw [hs] at h; cases h
  | ok sds =>
    rw [hs] at h
    cases ht : processTrades trades with
    | error e => rw [ht] at h; cases h
    | ok nts =>
      rw [ht] at h
      exact ⟨sds, nts, rfl, rfl, (Except.ok.inj h).symm⟩

theorem mem_sortByDate {row : DailySummary} {rows : List DailySummary} :
    row ∈ sortByDate rows ↔ row ∈ rows :=
  (List.perm_insertionSort (fun a b => a.date ≤ b.date) rows).mem_iff

theorem mem_regimeJoin {stats : List DailyStats} {sds : List SentimentDay} {row : DailySummary} :
    row ∈ regimeJoin stats sds ↔
      ∃ st ∈ stats, ∃ sd, sds.find? (fun sd => sd.date == some st.date) = some sd ∧
        row = mkSummary st sd := by
  unfold regimeJoin
  rw [List.mem_filterMap]
  constructor
  · rintro ⟨st, hst, hmap⟩
    rw [Option.map_eq_some'] at hmap
    obtain ⟨sd, hsd, hrow⟩ := hmap
    exact ⟨st, hst, sd, hsd, hrow.symm⟩
  · rintro ⟨st, hst, sd, hsd, rfl⟩
    refine ⟨st, hst, ?_⟩
    rw [hsd]
    rfl

theorem mem_dailyStats {nts : List NormalizedTrade} {ds : DailyStats} :
    ds ∈ dailyStats nts ↔ ∃ d, d ∈ tradeDates nts ∧ ds = mkDailyStats nts d := by
  unfold dailyStats
  rw [List.mem_map]
  constructor
  · rintro ⟨d, hd, rfl⟩
    exact ⟨d, hd, rfl⟩
  · rintro ⟨d, hd, rfl⟩
    exact ⟨d, hd, rfl⟩

theorem mem_tradeDates {nts : List NormalizedTrade} {d : Int} :
    d ∈ tradeDates nts ↔ ∃ nt ∈ nts, nt.date = d := by
  unfold tradeDates
  rw [(List.perm_insertionSort (fun a b => a ≤ b) _).mem_iff, List.mem_dedup, List.mem_map]

/-- Claim C2: a calendar date appears as a DailySummary row iff at least one
normalized trade falls on it and a sentiment record parses to it (inner
join, one-sided dates silently dropped), and the output is sorted ascending
by date. -/
theorem daily_summary_join_correct (sent : List RawSentimentRecord) (trades : List RawTrade)
    (out : List DailySummary × List NormalizedTrade)
    (hok : load_and_preprocess_data sent trades = .ok out) :
    (∀ d : Int, (∃ row ∈ out.1, row.date = d) ↔
      ((∃ nt ∈ out.2, nt.date = d) ∧ ∃ r ∈ sent, parseSentCell r.date = some (some d))) ∧
    List.Sorted (fun a b : DailySummary => a.date ≤ b.date) out.1 := by
  obtain ⟨sds, nts, hs, ht, rfl⟩ := load_ok_elim hok
  constructor
  · intro d
    constructor
    · rintro ⟨row, hrow, rfl⟩
      obtain ⟨st, hst, sd, hfind, rfl⟩ := mem_regimeJoin.mp (mem_sortByDate.mp hrow)
      obtain ⟨d0, hd0, rfl⟩ := mem_dailyStats.mp hst
      refine ⟨mem_tradeDates.mp hd0, ?_⟩
      have hsd : sd ∈ sds := List.mem_of_find?_eq_some hfind
      have hpred := List.find?_some hfind
      have hsdd : sd.date = some d0 := by
        rw [beq_iff_eq] at hpred
        exact hpred
      exact (processSentiment_dates hs (some d0)).mp ⟨sd, hsd, hsdd⟩
    · rintro ⟨⟨nt, hnt, rfl⟩, hsent⟩
      obtain ⟨sd, hsd, hsdd⟩ := (processSentiment_dates hs (some nt.date)).mpr hsent
      have hdd : nt.date ∈ tradeDates nts := mem_tradeDates.mpr ⟨nt, hnt, rfl⟩
      have hst : mkDailyStats nts nt.date ∈ dailyStats nts :=
        mem_dailyStats.mpr ⟨nt.date, hdd, rfl⟩
      have hfind : ∃ sd', sds.find? (fun sd => sd.date == some (mkDailyStats nts nt.date).date)
          = some sd' := by
        rw [← Option.isSome_iff_exists, List.find?_isSome]
        exact ⟨sd, hsd, by rw [beq_iff_eq, mkDailyStats_date]; exact hsdd⟩
      obtain ⟨sd', hfind⟩ := hfind
      exact ⟨mkSummary (mkDailyStats nts nt.date) sd',
        mem_sortByDate.mpr (mem_regimeJoin.mpr ⟨_, hst, sd', hfind, rfl⟩), rfl⟩
  · exact List.sorted_insertionSort (fun a b : DailySummary => a.date ≤ b.date)
      (regimeJoin (dailyStats nts) sds)

theorem daily_summary_join_correct_witness :
    List.Sorted (fun a b : DailySummary => a.date ≤ b.date) sampleOut.1 :=
  (daily_summary_join_correct sampleSentiment [sampleTrade] sampleOut (by rfl)).2

/-- Claim C3: win_rate is winning over max 1 (winning + losing) and
taker_ratio is taker over max 1 total (the replace-0-by-1 guard equals the
max-guard on naturals); a day whose single trade nets exactly zero gets
win_rate 0 rather than a division by zero. -/
theorem win_rate_taker_ratio_guarded (trades : List RawTrade) (nts : List NormalizedTrade)
    (h : processTrades trades = .ok nts) (ds : DailyStats) (hds : ds ∈ dailyStats nts) :
    ds.win_rate = (ds.winning_trades : ℚ)
      / ((max 1 (ds.winning_trades + ds.losing_trades) : Nat) : ℚ) ∧
    ds.taker_ratio = (ds.taker_trades : ℚ) / ((max 1 ds.total_trades : Nat) : ℚ) ∧
    (∀ nt, tradesOn nts ds.date = [nt] → nt.net_pnl = 0 → ds.win_rate = 0) := by
  obtain ⟨d, _, rfl⟩ := mem_dailyStats.mp hds
  refine ⟨?_, ?_, ?_⟩
  · rw [mkDailyStats_win_rate, mkDailyStats_winning, mkDailyStats_losing]
    by_cases h0 : (tradesOn nts d).countP (fun t => t.is_win)
        + (tradesOn nts d).countP (fun t => t.is_loss) = 0
    · rw [h0]
      norm_num
    · rw [if_neg h0, Nat.max_eq_right (Nat.one_le_iff_ne_zero.mpr h0)]
  · rw [mkDailyStats_taker_ratio, mkDailyStats_taker, mkDailyStats_total]
    by_cases h0 : (tradesOn nts d).length = 0
    · rw [h0]
      norm_num
    · rw [if_neg h0, Nat.max_eq_right (Nat.one_le_iff_ne_zero.mpr h0)]
  · intro nt hone hz
    have hmem : nt ∈ nts := by
      have : nt ∈ tradesOn nts (mkDailyStats nts d).date := by
        rw [hone]
        exact List.mem_singleton.mpr rfl
      exact List.mem_of_mem_filter this
    obtain ⟨hw, hl⟩ := processTrades_flags h nt hmem
    have hwin : nt.is_win = false := by
      rw [hw, hz]
      rfl
    have hloss : nt.is_loss = false := by
      rw [hl, hz]
      rfl
    rw [mkDailyStats_win_rate]
    rw [mkDailyStats_date] at hone
    rw [hone]
    simp [List.countP_cons, hwin, hloss]

theorem win_rate_taker_ratio_guarded_witness :
    (mkDailyStats [sampleNT] sampleNT.date).win_rate =
      ((mkDailyStats [sampleNT] sampleNT.date).winning_trades : ℚ)
        / ((max 1 ((mkDailyStats [sampleNT] sampleNT.date).winning_trades
            + (mkDailyStats [sampleNT] sampleNT.date).losing_trades) : Nat) : ℚ) :=
  (win_rate_taker_ratio_guarded [sampleTrade] [sampleNT] (by rfl)
    (mkDailyStats [sampleNT] sampleNT.date)
    (mem_dailyStats.mpr ⟨sampleNT.date, by decide, rfl⟩)).1

/-- Claim C8: win_rate and taker_ratio of every daily-aggregate row, and
hence of every DailySummary row, lie in the closed interval from 0 to 1. -/
theorem ratio_bounds :
    (∀ (nts : List NormalizedTrade) (ds : DailyStats), ds ∈ dailyStats nts →
      0 ≤ ds.win_rate ∧ ds.win_rate ≤ 1 ∧ 0 ≤ ds.taker_ratio ∧ ds.taker_ratio ≤ 1) ∧
    (∀ sent trades out, load_and_preprocess_data sent trades = .ok out →
      ∀ row ∈ out.1,
        0 ≤ row.win_rate ∧ row.win_rate ≤ 1 ∧ 0 ≤ row.taker_ratio ∧ row.taker_ratio ≤ 1) := by
  have hmain : ∀ (nts : List NormalizedTrade) (ds : DailyStats), ds ∈ dailyStats nts →
      0 ≤ ds.win_rate ∧ ds.win_rate ≤ 1 ∧ 0 ≤ ds.taker_ratio ∧ ds.taker_ratio ≤ 1 := by
    intro nts ds hds
    obtain ⟨d, _, rfl⟩ := mem_dailyStats.mp hds
    rw [mkDailyStats_win_rate, mkDailyStats_taker_ratio]
    refine ⟨?_, ?_, ?_, ?_⟩
    · by_cases h0 : (tradesOn nts d).countP (fun t => t.is_win)
          + (tradesOn nts d).countP (fun t => t.is_loss) = 0
      · rw [h0]
        norm_num
      · rw [if_neg h0]
        positivity
    · by_cases h0 : (tradesOn nts d).countP (fun t => t.is_win)
          + (tradesOn nts d).countP (fun t => t.is_loss) = 0
      · have hw : (tradesOn nts d).countP (fun t => t.is_win) = 0 := by omega
        rw [h0, hw]
        norm_num
      · rw [if_neg h0]
        rw [div_le_one (by exact_mod_cast Nat.pos_of_ne_zero h0)]
        exact_mod_cast Nat.le_add_right _ _
    · by_cases h0 : (tradesOn nts d).length = 0
      · rw [h0]
        norm_num
      · rw [if_neg h0]
        positivity
    · by_cases h0 : (tradesOn nts d).length = 0
      · have hk : (tradesOn nts d).countP (fun t => t.is_taker) = 0 := by
          have := List.countP_le_length (l := tradesOn nts d) (p := fun t => t.is_taker)
          omega
        rw [h0, hk]
        norm_num
      · rw [if_neg h0]
        rw [div_le_one (by exact_mod_cast Nat.pos_of_ne_zero h0)]
        exact_mod_cast List.countP_le_length (l := tradesOn nts d) (p := fun t => t.is_taker)
  refine ⟨hmain, ?_⟩
  rintro sent trades out hok row hrow
  obtain ⟨sds, nts, hs, ht, rfl⟩ := load_ok_elim hok
  obtain ⟨st, hst, sd, _, rfl⟩ := mem_regimeJoin.mp (mem_sortByDate.mp hrow)
  exact hmain nts st hst

theorem ratio_bounds_witness :
    0 ≤ (mkDailyStats [sampleNT] sampleNT.date).win_rate ∧
    (mkDailyStats [sampleNT] sampleNT.date).win_rate ≤ 1 ∧
    0 ≤ (mkDailyStats [sampleNT] sampleNT.date).taker_ratio ∧
    (mkDailyStats [sampleNT] sampleNT.date).taker_ratio ≤ 1 :=
  ratio_bounds.1 [sampleNT] (mkDailyStats [sampleNT] sampleNT.date)
    (mem_dailyStats.mpr ⟨sampleNT.date, by decide, rfl⟩)

/-- Claim C4: regime is a pure total function of the classification text,
case-insensitive substring containment checked fear-first (a label holding
both substrings maps to Fear), anything else maps to Neutral, and every
DailySummary row carries one of the three regime labels, equal to the
classifier applied to its own classification text. -/
theorem regime_classification_correct :
    (∀ x : Option String,
      categorize_regime x = "Fear" ∨ categorize_regime x = "Neutral"
        ∨ categorize_regime x = "Greed") ∧
    (∀ x : Option String, containsSub "fear" (strLower (pyStr x)) = true →
      categorize_regime x = "Fear") ∧
    (∀ x : Option String, containsSub "fear" (strLower (pyStr x)) = false →
      containsSub "greed" (strLower (pyStr x)) = true → categorize_regime x = "Greed") ∧
    (∀ x : Option String, containsSub "fear" (strLower (pyStr x)) = false →
      containsSub "greed" (strLower (pyStr x)) = false → categorize_regime x = "Neutral") ∧
    (∀ sent trades out, load_and_preprocess_data sent trades = .ok out →
      ∀ row ∈ out.1, row.regime = categorize_regime row.classification ∧
        (row.regime = "Fear" ∨ row.regime = "Neutral" ∨ row.regime = "Greed")) := by
  have hcases : ∀ x : Option String,
      categorize_regime x = "Fear" ∨ categorize_regime x = "Neutral"
        ∨ categorize_regime x = "Greed" := by
    intro x
    unfold categorize_regime
    by_cases hf : containsSub "fear" (strLower (pyStr x)) = true
    · rw [if_pos hf]
      exact Or.inl rfl
    · rw [if_neg hf]
      by_cases hg : containsSub "greed" (strLower (pyStr x)) = true
      · rw [if_pos hg]
        exact Or.inr (Or.inr rfl)
      · rw [if_neg hg]
        exact Or.inr (Or.inl rfl)
  refine ⟨hcases, ?_, ?_, ?_, ?_⟩
  · intro x hf
    unfold categorize_regime
    rw [if_pos hf]
  · intro x hf hg
    unfold categorize_regime
    rw [if_neg (by rw [hf]; exact Bool.false_ne_true), if_pos hg]
  · intro x hf hg
    unfold categorize_regime
    rw [if_neg (by rw [hf]; exact Bool.false_ne_true),
      if_neg (by rw [hg]; exact Bool.false_ne_true)]
  · rintro sent trades out hok row hrow
    obtain ⟨sds, nts, hs, ht, rfl⟩ := load_ok_elim hok
    obtain ⟨st, hst, sd, hfind, rfl⟩ := mem_regimeJoin.mp (mem_sortByDate.mp hrow)
    have hsd : sd ∈ sds := List.mem_of_find?_eq_some hfind
    have hreg : sd.regime = categorize_regime sd.classification :=
      processSentiment_regime hs sd hsd
    refine ⟨hreg, ?_⟩
    have : (mkSummary st sd).regime = categorize_regime sd.classification := hreg
    rw [this]
    exact hcases sd.classification

theorem regime_classification_correct_witness :
    categorize_regime (some "Extreme FEAR and greed") = "Fear" :=
  regime_classification_correct.2.1 (some "Extreme FEAR and greed") (by decide)

/-- Counterexample to claim C5 as stated: neither an absent classification
cell nor an absent date cell makes the load fail. An absent classification is
accepted and classified Neutral (python str of a missing cell is the text
nan, which holds neither substring); an absent date cell is silently
converted to the missing date NaT, and the resulting sentiment row then
matches no trade date, so it is dropped by the join instead of aborting the
load. -/
theorem sentiment_absent_fields_accepted :
    (processSentiment [absentClassRecord] =
      .ok [{ date := some ((civilDayNumber 2023 5 1 : Nat) : Int), value := 50,
             classification := none, regime := "Neutral" }] ∧
     load_and_preprocess_data [absentClassRecord] [] = .ok ([], [])) ∧
    (processSentiment [absentDateRecord] =
      .ok [{ date := none, value := 40,
             classification := some "Fear", regime := "Fear" }] ∧
     load_and_preprocess_data [absentDateRecord] [sampleTrade] = .ok ([], [sampleNT])) :=
  ⟨⟨rfl, rfl⟩, ⟨rfl, rfl⟩⟩

/-- Claim C5 as amended: the load fails with a ParseError naming the offending
input exactly when some sentiment date cell is present but malformed (the
third conjunct spells out that this is the condition parseSentCell rejects),
aborting the whole load with no partial result; an absent date cell and any
classification cell are never rejected, so a load whose present date strings
all parse passes the sentiment normalizer whatever its classification cells
and absent date cells hold. -/
theorem sentiment_parse_failure_aborts_load :
    (∀ (sent : List RawSentimentRecord) (trades : List RawTrade),
      (∃ r ∈ sent, parseSentCell r.date = none) →
      ∃ r ∈ sent, parseSentCell r.date = none ∧
        load_and_preprocess_data sent trades =
          .error ("ParseError: unparseable sentiment date " ++ pyStr r.date)) ∧
    (∀ sent : List RawSentimentRecord,
      (∀ r ∈ sent, (parseSentCell r.date).isSome = true) →
      ∃ sds, processSentiment sent = .ok sds) ∧
    (∀ c : Option String,
      parseSentCell c = none ↔ ∃ s, c = some s ∧ parseSentDate s = none) := by
  refine ⟨?_, ?_, ?_⟩
  · intro sent trades h
    obtain ⟨r, hm, hn, herr⟩ := parseSentiment_error_of h
    refine ⟨r, hm, hn, ?_⟩
    unfold load_and_preprocess_data processSentiment
    rw [herr]
  · intro sent h
    obtain ⟨ps, hps⟩ := parseSentiment_total h
    exact ⟨(dropDupDates [] ps).map (fun p => mkSentimentDay p.1 p.2), by
      unfold processSentiment
      rw [hps]⟩
  · intro c
    cases c with
    | none => simp [parseSentCell]
    | some s =>
      simp only [parseSentCell]
      cases hs : parseSentDate s with
      | none => simp [hs]
      | some d => simp [hs]

theorem sentiment_parse_failure_aborts_load_witness :
    ∃ r ∈ [badDateRecord], parseSentCell r.date = none ∧
      load_and_preprocess_data [badDateRecord] [] =
        .error ("ParseError: unparseable sentiment date " ++ pyStr r.date) :=
  sentiment_parse_failure_aborts_load.1 [badDateRecord] []
    ⟨badDateRecord, List.mem_singleton.mpr rfl, rfl⟩
